import Mathlib

/-!
Shallow embedding of the retryflow library (github.com/Vealcoo/retryflow):
a sequential step executor with checkpoint-aware retry.

Sources embedded here:
- retry.go          : the Retry engine (the loop, validation, limits, backoff, sleep)
- step.go (unnamed) : Step, Chain, Exec, Do, Checkpoint fluent setters
- option.go         : the options record and its defaults
- error_class.go    : ErrorClass and per-class limit tables
- attempt_error.go  : AttemptError wrapper, Unwrap, fullUnwrap
- backoff.go        : ExponentialBackoff, ConstantBackoff, FibonacciBackoff

Modelling conventions, chosen to stay faithful to the Go source:
- Go interface values (the any type) are GoVal: either the nil interface or a
  typed value (a runtime type tag plus a payload).  Assignability of concrete
  types is type-tag equality.
- Go errors are GoErr.  Only AttemptError implements Unwrap; every other error
  in the library is created by errors.New or fmt.Errorf without the w verb,
  so goUnwrap returns none for them, exactly as errors.Unwrap does.
- time.Duration values are Int nanoseconds.  Steps execute in zero time; the
  wall clock (time.Since(start)) advances only during the backoff sleep, by
  the amount actually slept.  Where int64 overflow matters to a claim
  (FibonacciBackoff), arithmetic is wrapped explicitly modulo 2^64.
- The context is a cancellation flag in the engine state; a step can cancel
  it from within (the run function reports this with a Bool).  ctx.Err() of a
  cancelled context is the cancellation cause GoErr.canceled, returned
  unchanged just as context.Canceled is.
- rand.Int63n for jitter is an injected stream of draws (jitterStream),
  consumed one draw per sleep, reduced into the interval that Int63n returns.
- The rate limiter is an opaque gate: when present it grants immediately
  unless the context is cancelled, in which case Wait returns the context
  error, as golang.org/x/time/rate does.  No claim depends on its timing.
- Hooks (onRetry, onAttemptStart, onStepSuccess, onFail) only observe; the
  trace of events plays their role.  outputPtr is modelled as a valid non-nil
  pointer carrying the type tag of its pointee; reflect.Value.Set applied to
  reflect.ValueOf(nil) - the zero reflect.Value - panics in Go, and the model
  records that outcome as Outcome.panicked.
- The outer for loop of Retry runs on explicit fuel; none means the fuel ran
  out before the call returned, so every theorem about a returned outcome
  supplies enough fuel.
-/

set_option maxRecDepth 4000

namespace Retryflow

/-- A Go interface value: the nil interface, or a value of some concrete
runtime type (a type tag) with a payload. -/
inductive GoVal
  | nil
  | mk (ty : Nat) (payload : Nat)
deriving DecidableEq, Repr

/-- Errors produced by the library and by caller step functions.
attemptError models the AttemptError struct of attempt_error.go. -/
inductive GoErr
  | msg (s : String)
  | base (tag : Nat)
  | canceled
  | typeMismatch (expected got : Nat)
  | outputTypeMismatch (expected got : Nat)
  | attemptError (attemptNo stepNo : Nat) (cause : GoErr)
deriving DecidableEq, Repr

/-- errors.Unwrap: only AttemptError has an Unwrap method (returning Err);
every other error of the library is errors.New or fmt.Errorf without w. -/
def goUnwrap : GoErr → Option GoErr
  | .attemptError _ _ c => some c
  | _ => none

/-- fullUnwrap of attempt_error.go: walk the cause chain to its root. -/
def fullUnwrap : GoErr → GoErr
  | .attemptError _ _ c => fullUnwrap c
  | e => e

/-- ErrorClass of error_class.go: a string naming an error category. -/
abbrev ErrorClass := String

/-- A step of step.go: a type-erased run function, an optional output-binding
target (the type tag of the pointee of the non-nil pointer handed to Do), and
the checkpoint flag.  The run function receives how many times this step has
run before and the opaque input, and returns (output, error, whether the step
cancelled the context from within). -/
structure Step where
  run : Nat → GoVal → GoVal × Option GoErr × Bool
  outputPtr : Option Nat := none
  checkpoint : Bool := false

/-- Chain of step.go: wraps a typed function behind a runtime type check.
A nil input is accepted unconditionally; a non-nil input whose type tag is
not the declared input type fails with the expected-but-got error, without
invoking the wrapped function. -/
def ChainStep (inTy : Nat) (fn : Nat → GoVal → GoVal × Option GoErr × Bool) : Step where
  run := fun c input =>
    match input with
    | .nil => fn c .nil
    | .mk ty p => if ty = inTy then fn c (.mk ty p)
                  else (.nil, some (.typeMismatch inTy ty), false)

/-- Exec of step.go: a step from a function with no input and no output;
its run function always produces the nil interface as output. -/
def ExecStep (fn : Nat → Option GoErr × Bool) : Step where
  run := fun c _ => (.nil, (fn c).1, (fn c).2)

/-- The options record of option.go.  Durations are Int nanoseconds. -/
structure Config where
  initialBackoff : Int
  maxBackoff : Int
  jitter : Int
  maxRetries : Int
  maxElapsedTime : Int
  backoffStrategy : Int → Int → Int
  retryable : GoErr → Bool
  perErrorLimits : List (ErrorClass × Int)
  classifier : GoErr → ErrorClass
  rateLimiter : Bool
  resetErrorLimitOnCheckpoint : Bool
  jitterStream : Nat → Int

/-- Engine state threaded through the Retry loop of retry.go, together with
the per-step call counters and the abstract clock used by the model. -/
structure State where
  checkpoint : Nat
  currentAttempt : Nat
  currentBackoff : Int
  counts : List (ErrorClass × Nat)
  lastCheckpointOutput : GoVal
  prevOutput : GoVal
  callCounts : List Nat
  cancelled : Bool
  elapsed : Int
  sleepsDone : Nat
deriving DecidableEq, Repr

/-- Observable events of one Retry call, in execution order. -/
inductive Ev
  | attemptStart (n : Nat)
  | exec (i : Nat) (input output : GoVal) (err : Option GoErr)
  | write (i : Nat) (v : GoVal)
  | fail (e : GoErr)
  | sleep (d : Int)
deriving DecidableEq, Repr

/-- The terminal outcome of a Retry call: nil, a non-nil error, or a panic
raised inside the engine (reflect.Value.Set on the zero Value). -/
inductive Outcome
  | ok
  | err (e : GoErr)
  | panicked
deriving DecidableEq, Repr

/-- How the inner walk over the pipeline ended. -/
inductive WalkExit
  | completed
  | failedAt (e : GoErr)
  | fatal (o : Outcome)
deriving DecidableEq, Repr

/-- Consecutive-occurrence count of an error class (reading the Go map). -/
def lookupCount : List (ErrorClass × Nat) → ErrorClass → Nat
  | [], _ => 0
  | (k, n) :: rest, c => if k = c then n else lookupCount rest c

/-- perErrorCounts[key]++ of retry.go line 128. -/
def bumpCount : List (ErrorClass × Nat) → ErrorClass → List (ErrorClass × Nat)
  | [], c => [(c, 1)]
  | (k, n) :: rest, c =>
      if k = c then (k, n + 1) :: rest else (k, n) :: bumpCount rest c

/-- Reading the per-class limit table (comma-ok lookup of a Go map). -/
def lookupLimit : List (ErrorClass × Int) → ErrorClass → Option Int
  | [], _ => none
  | (k, n) :: rest, c => if k = c then some n else lookupLimit rest c

/-- How many times step i has run (used to drive the run functions). -/
def getCount (l : List Nat) (i : Nat) : Nat := l.getD i 0

/-- Record one more run of step i. -/
def bumpAt : List Nat → Nat → List Nat
  | [], _ => []
  | n :: rest, 0 => (n + 1) :: rest
  | n :: rest, i + 1 => n :: bumpAt rest i

/-- The checkpoint block of retry.go lines 105-113: advance the resume point,
reset the attempt counter and backoff, snapshot the output, and optionally
clear the per-class counters. -/
def ckptUpdate (cfg : Config) (i : Nat) (s : Step) (output : GoVal) (st : State) : State :=
  if s.checkpoint then
    { st with
      checkpoint := i + 1
      currentAttempt := 0
      lastCheckpointOutput := output
      currentBackoff := cfg.initialBackoff
      counts := if cfg.resetErrorLimitOnCheckpoint then [] else st.counts }
  else st

/-- The inner walk of retry.go lines 68-114: execute steps from index i to the
end, checking the context at every step boundary, wrapping a failure in an
AttemptError, storing bound outputs, and advancing checkpoints.  The list
argument is the still-unwalked suffix of the pipeline; i is the absolute
0-based index of its head. -/
def walkAux (cfg : Config) : Nat → List Step → State → State × List Ev × WalkExit
  | _, [], st => (st, [], .completed)
  | i, s :: rest, st =>
    if st.cancelled then (st, [], .fatal (.err .canceled))
    else
      let c := getCount st.callCounts i
      let r := s.run c st.prevOutput
      let st1 := { st with
        callCounts := bumpAt st.callCounts i
        cancelled := st.cancelled || r.2.2 }
      let ev := Ev.exec i st.prevOutput r.1 r.2.1
      match r.2.1 with
      | some e =>
          let w := GoErr.attemptError st1.currentAttempt (i + 1) e
          (st1, [ev, Ev.fail w], .failedAt w)
      | none =>
        match s.outputPtr with
        | some outTy =>
          match r.1 with
          | .nil =>
              -- reflect.ValueOf(nil) is the zero Value; Set panics on it
              (st1, [ev], .fatal .panicked)
          | .mk ty p =>
            if ty = outTy then
              let st2 := ckptUpdate cfg i s (.mk ty p) { st1 with prevOutput := .mk ty p }
              let res := walkAux cfg (i + 1) rest st2
              (res.1, ev :: Ev.write i (.mk ty p) :: res.2.1, res.2.2)
            else
              (st1, [ev], .fatal (.err (.outputTypeMismatch outTy ty)))
        | none =>
          let st2 := ckptUpdate cfg i s r.1 { st1 with prevOutput := r.1 }
          let res := walkAux cfg (i + 1) rest st2
          (res.1, ev :: res.2.1, res.2.2)

/-- One outer iteration of the Retry loop plus the recursion, on fuel.
Follows retry.go lines 49-163 in order: bump the attempt counter, seed
prevOutput from the last checkpoint, rate-limiter gate, attempt-start hook,
inner walk, then on failure: retryability of the root cause, per-class
counting and limits, attempt ceiling, elapsed ceiling, backoff computation,
jitter, and the sleep racing the context. -/
def loop (cfg : Config) (steps : List Step) : State → Nat → Option (Outcome × List Ev × State)
  | _, 0 => none
  | st, fuel + 1 =>
    let st := { st with
      currentAttempt := st.currentAttempt + 1
      prevOutput := st.lastCheckpointOutput }
    if cfg.rateLimiter && st.cancelled then some (.err .canceled, [], st)
    else
      let w := walkAux cfg st.checkpoint (steps.drop st.checkpoint) st
      let st1 := w.1
      let tr := Ev.attemptStart st.currentAttempt :: w.2.1
      match w.2.2 with
      | .completed => some (.ok, tr, st1)
      | .fatal o => some (o, tr, st1)
      | .failedAt e =>
        let root := fullUnwrap e
        if cfg.retryable root then
          let key := cfg.classifier root
          let st2 := { st1 with counts := bumpCount st1.counts key }
          let hitLimit : Bool :=
            match lookupLimit cfg.perErrorLimits key with
            | some lim => decide ((lookupCount st2.counts key : Int) > lim)
            | none => false
          if hitLimit then some (.err e, tr, st2)
          else if 0 ≤ cfg.maxRetries ∧ (st2.currentAttempt : Int) ≥ cfg.maxRetries then
            some (.err e, tr, st2)
          else if 0 < cfg.maxElapsedTime ∧ st2.elapsed ≥ cfg.maxElapsedTime then
            some (.err e, tr, st2)
          else
            let next := min (cfg.backoffStrategy (st2.currentAttempt : Int) st2.currentBackoff)
                            cfg.maxBackoff
            let slp :=
              if 0 < cfg.jitter then
                max (next + ((cfg.jitterStream st2.sleepsDone) % (2 * cfg.jitter) - cfg.jitter))
                    10000000
              else next
            if st2.cancelled then some (.err .canceled, tr, st2)
            else
              let st3 := { st2 with
                elapsed := st2.elapsed + max slp 0
                sleepsDone := st2.sleepsDone + 1
                currentBackoff := next }
              match loop cfg steps st3 fuel with
              | none => none
              | some (o, tr2, stF) => some (o, tr ++ Ev.sleep slp :: tr2, stF)
        else some (.err e, tr, st1)

/-- Option validation of retry.go lines 24-35, in source order. -/
def validateErr (cfg : Config) : Option GoErr :=
  if cfg.initialBackoff ≤ 0 then some (.msg "initialBackoff must be positive")
  else if cfg.maxBackoff < cfg.initialBackoff then some (.msg "maxBackoff must be >= initialBackoff")
  else if cfg.jitter < 0 then some (.msg "jitter must be non-negative")
  else if cfg.maxRetries < 0 ∧ cfg.maxElapsedTime = 0 then
    some (.msg "infinite retry without maxElapsedTime is dangerous")
  else none

/-- Engine state at the start of a Retry call (retry.go lines 37-48). -/
def initState (cfg : Config) (steps : List Step) (c0 : Bool) : State where
  checkpoint := 0
  currentAttempt := 0
  currentBackoff := cfg.initialBackoff
  counts := []
  lastCheckpointOutput := .nil
  prevOutput := .nil
  callCounts := List.replicate steps.length 0
  cancelled := c0
  elapsed := 0
  sleepsDone := 0

/-- Retry of retry.go: empty pipelines return nil before options are even
parsed; then option validation; then the retry loop.  c0 says whether the
supplied context is already cancelled when the call starts. -/
def Retry (cfg : Config) (steps : List Step) (c0 : Bool) (fuel : Nat) :
    Option (Outcome × List Ev × State) :=
  if steps.isEmpty then some (.ok, [], initState cfg steps c0)
  else
    match validateErr cfg with
    | some m => some (.err m, [], initState cfg steps c0)
    | none => loop cfg steps (initState cfg steps c0) fuel

/-- 64-bit two's-complement wrap-around, for Go int64 arithmetic where a
claim makes the overflow observable. -/
def wrap64 (x : Int) : Int := (x + 2 ^ 63) % 2 ^ 64 - 2 ^ 63

/-- ExponentialBackoff of backoff.go. -/
def ExponentialBackoff (_attempt prev : Int) : Int :=
  if prev = 0 then 500000000 else wrap64 (prev * 2)

/-- ConstantBackoff of backoff.go. -/
def ConstantBackoff (_attempt prev : Int) : Int :=
  if prev = 0 then 500000000 else prev

/-- The (a, b) pair after n iterations of the Fibonacci loop of backoff.go,
starting from (1, 1), with Go int64 addition. -/
def fibPair : Nat → Int × Int
  | 0 => (1, 1)
  | n + 1 => ((fibPair n).2, wrap64 ((fibPair n).1 + (fibPair n).2))

/-- FibonacciBackoff of backoff.go: 500ms for attempt at most 1, otherwise
the loop runs for i = 3 .. attempt and the result is
time.Duration(b) * 500 * time.Millisecond in int64 arithmetic. -/
def FibonacciBackoff (attempt : Int) (_prev : Int) : Int :=
  if attempt ≤ 1 then 500000000
  else wrap64 (wrap64 ((fibPair (attempt - 2).toNat).2 * 500) * 1000000)

/-- Number of exec events (step executions) in a trace. -/
def countExecs : List Ev → Nat
  | [] => 0
  | .exec _ _ _ _ :: rest => countExecs rest + 1
  | _ :: rest => countExecs rest

/-- Number of executions of the step at 0-based index i in a trace. -/
def countExecsAt : List Ev → Nat → Nat
  | [], _ => 0
  | .exec j _ _ _ :: rest, i => (if j = i then 1 else 0) + countExecsAt rest i
  | _ :: rest, i => countExecsAt rest i

/-- Outcome and trace of a Retry call, dropping the final engine state. -/
def runOut (cfg : Config) (steps : List Step) (c0 : Bool) (fuel : Nat) :
    Option (Outcome × List Ev) :=
  (Retry cfg steps c0 fuel).map (fun r => (r.1, r.2.1))

/-- Final engine state of a Retry call. -/
def runState (cfg : Config) (steps : List Step) (c0 : Bool) (fuel : Nat) : Option State :=
  (Retry cfg steps c0 fuel).map (fun r => r.2.2)

/-- The (step index, input) of the first step executed in the current attempt
segment of a trace, stopping at the next attempt boundary. -/
def nextExecInAttempt : List Ev → Option (Nat × GoVal)
  | [] => none
  | .exec i inp _ _ :: _ => some (i, inp)
  | .attemptStart _ :: _ => none
  | _ :: rest => nextExecInAttempt rest

/-- For each attempt started in the trace, the (step index, input) of the
first step it executed, if any. -/
def attemptFirstExecs : List Ev → List (Option (Nat × GoVal))
  | [] => []
  | .attemptStart _ :: rest => nextExecInAttempt rest :: attemptFirstExecs rest
  | _ :: rest => attemptFirstExecs rest

/-- What the checkpoint contract guarantees of every event after the
checkpoint step k has succeeded with output w: executions only touch steps
past k, and an execution of step k+1 receives exactly w as input. -/
def evOK (k : Nat) (w : GoVal) : Ev → Prop
  | .exec i inp _ _ => k < i ∧ (i = k + 1 → inp = w)
  | _ => True

/-- A trace respecting the checkpoint contract for step k with output w. -/
def checkpointSafe (k : Nat) (w : GoVal) (tr : List Ev) : Prop :=
  ∀ ev ∈ tr, evOK k w ev

/-! Concrete pipelines and configurations used as witnesses and
counterexamples below. -/

/-- A deterministic valid baseline configuration: no jitter, no rate limiter,
constant strategy, five attempts per segment, no elapsed-time ceiling. -/
def cfgBase : Config where
  initialBackoff := 1
  maxBackoff := 1
  jitter := 0
  maxRetries := 5
  maxElapsedTime := 0
  backoffStrategy := fun _ p => p
  retryable := fun _ => true
  perErrorLimits := []
  classifier := fun _ => "c"
  rateLimiter := false
  resetErrorLimitOnCheckpoint := true
  jitterStream := fun _ => 0

/-- An invalid configuration: initial backoff is not positive. -/
def cfgBad : Config := { cfgBase with initialBackoff := 0 }

/-- maxRetries 3 with a one-nanosecond elapsed-time ceiling. -/
def cfgElapsed : Config := { cfgBase with maxRetries := 3, maxElapsedTime := 1 }

/-- maxRetries 2, otherwise the baseline. -/
def cfgTwoRetries : Config := { cfgBase with maxRetries := 2 }

/-- A retryability predicate that rejects everything. -/
def cfgNoRetry : Config := { cfgBase with retryable := fun _ => false }

/-- maxRetries 1, otherwise the baseline. -/
def cfgOneRetry : Config := { cfgBase with maxRetries := 1 }

/-- A step that always fails, with a distinct error per call. -/
def sFail : Step where
  run := fun c _ => (.nil, some (.base c), false)

/-- The baseline with a per-class limit of 2 on class "c" and maxRetries 10. -/
def cfgClassLim : Config :=
  { cfgBase with maxRetries := 10, perErrorLimits := [("c", 2)] }

/-- A checkpointed step that always succeeds producing the value (1, 7). -/
def sCkptA : Step where
  run := fun _ _ => (.mk 1 7, none, false)
  checkpoint := true

/-- A checkpointed step that always succeeds producing the value (2, 5). -/
def sCkptB : Step where
  run := fun _ _ => (.mk 2 5, none, false)
  checkpoint := true

/-- A step that fails on its first call and then succeeds with (2, 9). -/
def sFailOnce : Step where
  run := fun c _ => if c = 0 then (.nil, some (.base 0), false) else (.mk 2 9, none, false)

/-- A step that always succeeds producing a value of runtime type 1. -/
def sTypeA : Step where
  run := fun _ _ => (.mk 1 0, none, false)

/-- A chained step whose declared input type is 2. -/
def sChainB : Step := ChainStep 2 (fun _ v => (v, none, false))

/-- A step that cancels the context from within and also returns a business
error. -/
def sCancelFail : Step where
  run := fun _ _ => (.nil, some (.base 7), true)

/-- A step that succeeds producing the nil interface, with an output binding
target whose pointee type is 3 (an Exec step followed by Do). -/
def sNilOut : Step where
  run := fun _ _ => (.nil, none, false)
  outputPtr := some 3

/-- Trace suffix following the success of checkpoint step 0 in the
single-checkpoint witness run below. -/
def trCkptTail : List Ev :=
  [.exec 1 (.mk 1 7) .nil (some (.base 0)), .fail (.attemptError 0 2 (.base 0)),
   .sleep 1, .attemptStart 1, .exec 1 (.mk 1 7) (.mk 2 9) none]

/-- Trace suffix following the success of checkpoint step 0 in the
two-checkpoint counterexample run below. -/
def trTwoCkptTail : List Ev :=
  [.exec 1 (.mk 1 7) (.mk 2 5) none, .exec 2 (.mk 2 5) .nil (some (.base 0)),
   .fail (.attemptError 0 3 (.base 0)), .sleep 1, .attemptStart 1,
   .exec 2 (.mk 2 5) (.mk 2 9) none]

/-! Theorems. -/

theorem countExecs_append (l1 l2 : List Ev) :
    countExecs (l1 ++ l2) = countExecs l1 + countExecs l2 := by
  induction l1 with
  | nil => simp [countExecs]
  | cons e rest ih => cases e <;> simp [countExecs, ih] <;> omega

theorem countExecsAt_append (l1 l2 : List Ev) (i : Nat) :
    countExecsAt (l1 ++ l2) i = countExecsAt l1 i + countExecsAt l2 i := by
  induction l1 with
  | nil => simp [countExecsAt]
  | cons e rest ih => cases e <;> simp [countExecsAt, ih] <;> omega

theorem lookupCount_bump (l : List (ErrorClass × Nat)) (c : ErrorClass) :
    lookupCount (bumpCount l c) c = lookupCount l c + 1 := by
  induction l with
  | nil => simp [bumpCount, lookupCount]
  | cons p rest ih =>
    obtain ⟨k, n⟩ := p
    by_cases h : k = c
    · simp [bumpCount, lookupCount, h]
    · simp [bumpCount, lookupCount, h, ih]

theorem validateErr_eq_none (cfg : Config) (hib : 0 < cfg.initialBackoff)
    (hmb : cfg.initialBackoff ≤ cfg.maxBackoff) (hj : 0 ≤ cfg.jitter)
    (hok : 0 ≤ cfg.maxRetries ∨ cfg.maxElapsedTime ≠ 0) : validateErr cfg = none := by
  have h4 : ¬ (cfg.maxRetries < 0 ∧ cfg.maxElapsedTime = 0) := by
    rcases hok with h | h
    · intro hc; omega
    · intro hc; exact h hc.2
  unfold validateErr
  rw [if_neg (by omega : ¬ cfg.initialBackoff ≤ 0),
    if_neg (by omega : ¬ cfg.maxBackoff < cfg.initialBackoff),
    if_neg (by omega : ¬ cfg.jitter < 0), if_neg h4]

/-- Loop invariant behind C2: with a single always-failing retryable step, no
per-class limit for its error classes, no elapsed-time ceiling and maxRetries
N, the loop performs exactly N - a more executions when the attempt counter
stands at a, and returns the last failure wrapped. -/
theorem loop_single_fail (cfg : Config) (step : Step)
    (outFn : Nat → GoVal → GoVal) (errFn : Nat → GoErr) (N : Nat)
    (hrun : ∀ c v, step.run c v = (outFn c v, some (errFn c), false))
    (hretry : ∀ c, cfg.retryable (fullUnwrap (errFn c)) = true)
    (hlim : ∀ c, lookupLimit cfg.perErrorLimits (cfg.classifier (fullUnwrap (errFn c))) = none)
    (hrl : cfg.rateLimiter = false)
    (hmet : cfg.maxElapsedTime = 0)
    (hmr : cfg.maxRetries = (N : Int)) :
    ∀ (fuel a c : Nat) (cb : Int) (cnts : List (ErrorClass × Nat)) (lco po : GoVal)
      (el : Int) (sd : Nat),
      a < N → N - a ≤ fuel →
      ∃ tr stF, loop cfg [step] ⟨0, a, cb, cnts, lco, po, [c], false, el, sd⟩ fuel =
        some (.err (.attemptError N 1 (errFn (c + (N - a) - 1))), tr, stF) ∧
        countExecs tr = N - a := by
  intro fuel
  induction fuel with
  | zero => intro a c cb cnts lco po el sd hlt hf; omega
  | succ fuel ih =>
    intro a c cb cnts lco po el sd hlt hf
    rcases Nat.lt_or_ge (a + 1) N with hlt2 | hge
    · have hncond : ¬ N ≤ a + 1 := by omega
      simp only [loop, walkAux, hrl, hrun, hretry, hlim, hmet, hmr, List.drop,
        getCount, bumpAt, List.getD_cons_zero, fullUnwrap, Bool.false_and, Bool.or_false,
        Bool.false_eq_true, if_false, ge_iff_le, Nat.cast_le, Nat.cast_nonneg, true_and,
        hncond, lt_self_iff_false, false_and, ite_false, if_true, ite_true]
      have hidx : c + 1 + (N - (a + 1)) - 1 = c + (N - a) - 1 := by omega
      obtain ⟨tr2, stF, heq, hcnt⟩ :=
        ih (a + 1) (c + 1) _ _ lco lco _ _ hlt2 (by omega)
      rw [hidx] at heq
      rw [heq]
      refine ⟨_, _, rfl, ?_⟩
      simp [countExecs_append, countExecs, hcnt]
      omega
    · have hcond : N ≤ a + 1 := hge
      have h2 : c + (N - a) - 1 = c := by omega
      simp only [loop, walkAux, hrl, hrun, hretry, hlim, hmet, hmr, List.drop,
        getCount, bumpAt, List.getD_cons_zero, fullUnwrap, Bool.false_and, Bool.or_false,
        Bool.false_eq_true, if_false, ge_iff_le, Nat.cast_le, Nat.cast_nonneg, true_and,
        hcond, ite_true, if_true]
      rw [h2, show a + 1 = N from by omega]
      refine ⟨_, _, rfl, ?_⟩
      simp [countExecs]
      omega

/-- C2 (amended): with maxRetries N at least 1, a single-step pipeline whose
step always fails with a retryable error hitting no per-error-class limit,
and no elapsed-time ceiling (maxElapsedTime 0), Retry executes the step
exactly N times and returns the non-nil wrapped last error. -/
theorem retry_maxRetries_exact_count (cfg : Config) (step : Step)
    (outFn : Nat → GoVal → GoVal) (errFn : Nat → GoErr) (N : Nat) (fuel : Nat)
    (hrun : ∀ c v, step.run c v = (outFn c v, some (errFn c), false))
    (hretry : ∀ c, cfg.retryable (fullUnwrap (errFn c)) = true)
    (hlim : ∀ c, lookupLimit cfg.perErrorLimits (cfg.classifier (fullUnwrap (errFn c))) = none)
    (hrl : cfg.rateLimiter = false)
    (hmet : cfg.maxElapsedTime = 0)
    (hmr : cfg.maxRetries = (N : Int))
    (hN : 1 ≤ N)
    (hib : 0 < cfg.initialBackoff) (hmb : cfg.initialBackoff ≤ cfg.maxBackoff)
    (hj : 0 ≤ cfg.jitter)
    (hfuel : N ≤ fuel) :
    ∃ tr, runOut cfg [step] false fuel =
        some (.err (.attemptError N 1 (errFn (N - 1))), tr) ∧
      countExecs tr = N := by
  obtain ⟨tr, stF, heq, hcnt⟩ :=
    loop_single_fail cfg step outFn errFn N hrun hretry hlim hrl hmet hmr fuel 0 0
      cfg.initialBackoff [] .nil .nil 0 0 (by omega) (by omega)
  simp only [Nat.sub_zero, Nat.zero_add] at heq hcnt
  have hval : validateErr cfg = none :=
    validateErr_eq_none cfg hib hmb hj (Or.inl (by omega))
  refine ⟨tr, ?_, hcnt⟩
  unfold runOut Retry
  rw [hval]
  have hinit : initState cfg [step] false =
      ⟨0, 0, cfg.initialBackoff, [], .nil, .nil, [0], false, 0, 0⟩ := rfl
  simp only [List.isEmpty_cons, Bool.false_eq_true, if_false, hinit, heq]
  rfl

/-- Witness for C2 at N = 2 with the concrete always-failing step. -/
theorem retry_maxRetries_exact_count_witness :
    (cfgTwoRetries.maxRetries = ((2 : Nat) : Int) ∧ cfgTwoRetries.maxElapsedTime = 0 ∧
      (1 : Nat) ≤ 2 ∧ (2 : Nat) ≤ 2) ∧
    ∃ tr, runOut cfgTwoRetries [sFail] false 2 =
        some (.err (.attemptError 2 1 (.base 1)), tr) ∧
      countExecs tr = 2 :=
  ⟨⟨by decide, by decide, by decide, by decide⟩,
   retry_maxRetries_exact_count cfgTwoRetries sFail (fun _ _ => .nil) .base 2 2
     (fun _ _ => rfl) (fun _ => rfl) (fun _ => rfl) rfl rfl (by decide) (by decide)
     (by decide) (by decide) (by decide) (by decide)⟩

/-- C10 (amended): FibonacciBackoff returns 500ms for attempts at most 1;
for attempts 2 through 50 it returns 500ms times the standard Fibonacci
number of the attempt (fib 1 = fib 2 = 1); and its result never depends on
the previous-delay argument.  Beyond attempt 50 the int64 multiplication
wraps, so the clean product formula stops there. -/
theorem fibonacci_backoff_values :
    (∀ n prev : Int, n ≤ 1 → FibonacciBackoff n prev = 500000000) ∧
    (∀ n : Nat, 2 ≤ n → n ≤ 50 → ∀ prev : Int,
      FibonacciBackoff (n : Int) prev = 500000000 * (Nat.fib n : Int)) ∧
    (∀ n p q : Int, FibonacciBackoff n p = FibonacciBackoff n q) := by
  refine ⟨fun n prev h => by rw [FibonacciBackoff, if_pos h],
    fun n h2 h50 prev => ?_, fun n p q => rfl⟩
  have hnot : ¬ ((n : Int) ≤ 1) := by omega
  rw [FibonacciBackoff, if_neg hnot]
  have ht : ((n : Int) - 2).toNat = n - 2 := by omega
  rw [ht]
  have key : ∀ m : Nat, m < 49 →
      wrap64 (wrap64 ((fibPair m).2 * 500) * 1000000) = 500000000 * (Nat.fib (m + 2) : Int) := by
    decide
  have h := key (n - 2) (by omega)
  rwa [Nat.sub_add_cancel h2] at h

/-- Witness for C10 at attempt 10 (and the two side conjuncts at concrete
arguments). -/
theorem fibonacci_backoff_values_witness :
    ((2 ≤ 10 ∧ 10 ≤ 50) ∧ (-3 : Int) ≤ 1) ∧
    FibonacciBackoff ((10 : Nat) : Int) 7 = 500000000 * (Nat.fib 10 : Int) ∧
    FibonacciBackoff (-3) 9 = 500000000 ∧
    FibonacciBackoff 4 5 = FibonacciBackoff 4 11 :=
  ⟨⟨⟨by decide, by decide⟩, by decide⟩,
   fibonacci_backoff_values.2.1 10 (by decide) (by decide) 7,
   fibonacci_backoff_values.1 (-3) 9 (by decide),
   fibonacci_backoff_values.2.2 4 5 11⟩

/-- C10 counterexample: at attempt 51 the Go computation
time.Duration(b) * 500 * time.Millisecond overflows int64 and wraps to a
negative duration, so the result is not 500ms times fib 51. -/
theorem fibonacci_backoff_overflow_counterexample :
    FibonacciBackoff 51 0 = -8264238536709551616 ∧
    500000000 * (Nat.fib 51 : Int) = 10182505537000000000 ∧
    FibonacciBackoff 51 0 ≠ 500000000 * (Nat.fib 51 : Int) := by decide

/-- C9 counterexample: with an empty pipeline, Retry returns nil before the
options are validated, even though the configuration has a non-positive
initial backoff. -/
theorem retry_validation_empty_counterexample :
    cfgBad.initialBackoff ≤ 0 ∧ runOut cfgBad [] false 1 = some (.ok, []) := by decide

/-- C9 (amended): for every non-empty pipeline, a configuration with a
non-positive initial backoff, or maximum backoff below initial backoff, or
negative jitter, or unbounded retries combined with unbounded elapsed time,
makes Retry return a non-nil configuration error with no step executed. -/
theorem retry_validation_rejects (cfg : Config) (steps : List Step) (c0 : Bool) (fuel : Nat)
    (hne : steps ≠ [])
    (hbad : cfg.initialBackoff ≤ 0 ∨ cfg.maxBackoff < cfg.initialBackoff ∨ cfg.jitter < 0 ∨
      (cfg.maxRetries < 0 ∧ cfg.maxElapsedTime = 0)) :
    ∃ m, Retry cfg steps c0 fuel = some (.err (.msg m), [], initState cfg steps c0) := by
  have hval : ∃ m, validateErr cfg = some (.msg m) := by
    unfold validateErr
    split_ifs with h1 h2 h3 h4
    · exact ⟨_, rfl⟩
    · exact ⟨_, rfl⟩
    · exact ⟨_, rfl⟩
    · exact ⟨_, rfl⟩
    · rcases hbad with h | h | h | h
      · exact absurd h h1
      · exact absurd h h2
      · exact absurd h h3
      · exact absurd h h4
  obtain ⟨m, hm⟩ := hval
  have he : steps.isEmpty = false := by
    cases steps with
    | nil => exact absurd rfl hne
    | cons a l => rfl
  refine ⟨m, ?_⟩
  rw [Retry, he, hm]
  rfl

/-- Witness for C9 at the concrete bad configuration. -/
theorem retry_validation_rejects_witness :
    (([sFail] : List Step) ≠ [] ∧ cfgBad.initialBackoff ≤ 0) ∧
    ∃ m, Retry cfgBad [sFail] false 1 = some (.err (.msg m), [], initState cfgBad [sFail] false) :=
  ⟨⟨by simp, by decide⟩,
   retry_validation_rejects cfgBad [sFail] false 1 (by simp) (Or.inl (by decide))⟩

/-- C7 (the code at the claimed behavior's input): a step that succeeds
producing the nil interface while an output binding is attached makes Retry
panic inside reflect.Value.Set - the nil value is not written and execution
does not continue. -/
theorem retry_nil_output_write_panics :
    runOut cfgBase [sNilOut] false 1 =
      some (.panicked, [.attemptStart 1, .exec 0 .nil .nil none]) := by decide

/-- C2 counterexample: with maxRetries 3 but a one-nanosecond elapsed-time
ceiling, the always-failing step runs only twice before Retry returns, so
the step is not executed exactly maxRetries times for every configuration. -/
theorem retry_maxRetries_elapsed_counterexample :
    cfgElapsed.maxRetries = 3 ∧
    runOut cfgElapsed [sFail] false 3 =
      some (.err (.attemptError 2 1 (.base 1)),
        [.attemptStart 1, .exec 0 .nil .nil (some (.base 0)),
         .fail (.attemptError 1 1 (.base 0)), .sleep 1, .attemptStart 2,
         .exec 0 .nil .nil (some (.base 1)), .fail (.attemptError 2 1 (.base 1))]) ∧
    (runOut cfgElapsed [sFail] false 3).map (fun r => countExecs r.2) = some 2 ∧
    (2 : Nat) ≠ 3 := by decide

/-- C5 counterexample: a runtime type mismatch between chained steps is not
surfaced immediately - with maxRetries 2 the mismatching step executes twice
and the mismatch comes back wrapped in an AttemptError. -/
theorem chain_type_mismatch_counterexample :
    runOut cfgTwoRetries [sTypeA, sChainB] false 2 =
      some (.err (.attemptError 2 2 (.typeMismatch 2 1)),
        [.attemptStart 1, .exec 0 .nil (.mk 1 0) none,
         .exec 1 (.mk 1 0) .nil (some (.typeMismatch 2 1)),
         .fail (.attemptError 1 2 (.typeMismatch 2 1)), .sleep 1, .attemptStart 2,
         .exec 0 .nil (.mk 1 0) none, .exec 1 (.mk 1 0) .nil (some (.typeMismatch 2 1)),
         .fail (.attemptError 2 2 (.typeMismatch 2 1))]) ∧
    (runOut cfgTwoRetries [sTypeA, sChainB] false 2).map (fun r => countExecsAt r.2 1) =
      some 2 ∧
    (2 : Nat) ≠ 1 := by decide

/-- C6 counterexample: the step cancels the context and returns a business
error, but the configuration classifies the error as non-retryable, so Retry
returns the wrapped business error, not the cancellation cause. -/
theorem retry_cancellation_counterexample :
    runOut cfgNoRetry [sCancelFail] false 1 =
      some (.err (.attemptError 1 1 (.base 7)),
        [.attemptStart 1, .exec 0 .nil .nil (some (.base 7)),
         .fail (.attemptError 1 1 (.base 7))]) ∧
    Outcome.err (.attemptError 1 1 (.base 7)) ≠ Outcome.err .canceled := by decide

/-- C8 counterexample: after checkpoint step 1 succeeds, a failure of step 2
in the same walk is wrapped with Attempt = 0, not with a 1-based attempt
number. -/
theorem attempt_error_zero_counterexample :
    runOut cfgNoRetry [sCkptA, sFail] false 1 =
      some (.err (.attemptError 0 2 (.base 0)),
        [.attemptStart 1, .exec 0 .nil (.mk 1 7) none,
         .exec 1 (.mk 1 7) .nil (some (.base 0)), .fail (.attemptError 0 2 (.base 0))]) ∧
    ¬ 1 ≤ (0 : Nat) := by decide

/-- C1 counterexample: with checkpoints at steps 0 and 1 (0-based), after
step 0 succeeds with output (1, 7) the next attempt's first executed step
is step 2 with input (2, 5) - not step 1 receiving step 0's output, as the
claim asserts of every later attempt for every checkpointed step. -/
theorem retry_checkpoint_first_step_counterexample :
    sCkptA.checkpoint = true ∧
    runOut cfgBase [sCkptA, sCkptB, sFailOnce] false 2 =
      some (.ok, [.attemptStart 1, .exec 0 .nil (.mk 1 7) none] ++ trTwoCkptTail) ∧
    attemptFirstExecs trTwoCkptTail = [some (2, .mk 2 5)] ∧
    some ((2 : Nat), GoVal.mk 2 5) ≠ some (0 + 1, GoVal.mk 1 7) := by decide


/-- Loop invariant behind C3: with a single always-failing step whose root
causes all classify to C under limit L, a counter already at m, and neither
the attempt nor the elapsed ceiling binding, the loop performs exactly
L + 1 - m more executions and stops when the counter strictly exceeds L. -/
theorem loop_class_limit (cfg : Config) (step : Step)
    (outFn : Nat → GoVal → GoVal) (errFn : Nat → GoErr) (C : ErrorClass) (L M : Nat)
    (hrun : ∀ c v, step.run c v = (outFn c v, some (errFn c), false))
    (hretry : ∀ c, cfg.retryable (fullUnwrap (errFn c)) = true)
    (hclass : ∀ c, cfg.classifier (fullUnwrap (errFn c)) = C)
    (hlimC : lookupLimit cfg.perErrorLimits C = some ((L : Nat) : Int))
    (hrl : cfg.rateLimiter = false)
    (hmet : cfg.maxElapsedTime = 0)
    (hmr : cfg.maxRetries = (M : Int)) :
    ∀ (fuel a c m : Nat) (cb : Int) (cnts : List (ErrorClass × Nat)) (lco po : GoVal)
      (el : Int) (sd : Nat),
      lookupCount cnts C = m → m ≤ L → a + (L + 1 - m) ≤ M → L + 1 - m ≤ fuel →
      ∃ tr stF, loop cfg [step] ⟨0, a, cb, cnts, lco, po, [c], false, el, sd⟩ fuel =
        some (.err (.attemptError (a + (L + 1 - m)) 1 (errFn (c + (L - m)))), tr, stF) ∧
        countExecs tr = L + 1 - m := by
  intro fuel
  induction fuel with
  | zero => intro a c m cb cnts lco po el sd hm hmL hM hf; omega
  | succ fuel ih =>
    intro a c m cb cnts lco po el sd hm hmL hM hf
    rcases Nat.lt_or_ge m L with hlt2 | hge
    · have hc1 : ¬ L < lookupCount (bumpCount cnts C) C := by
        rw [lookupCount_bump, hm]; omega
      have hc2 : ¬ M ≤ a + 1 := by omega
      simp only [loop, walkAux, hrl, hrun, hretry, hclass, hlimC, hmet, hmr, List.drop,
        getCount, bumpAt, List.getD_cons_zero, fullUnwrap, Bool.false_and, Bool.or_false,
        Bool.false_eq_true, if_false, ge_iff_le, Nat.cast_le, Nat.cast_lt, Nat.cast_nonneg,
        true_and, decide_eq_true_eq, hc1, hc2, lt_self_iff_false, false_and, ite_false,
        if_true, ite_true, gt_iff_lt]
      have hidx : c + 1 + (L - (m + 1)) = c + (L - m) := by omega
      have hatt : a + 1 + (L + 1 - (m + 1)) = a + (L + 1 - m) := by omega
      obtain ⟨tr2, stF, heq, hcnt⟩ :=
        ih (a + 1) (c + 1) (m + 1) _ (bumpCount cnts C) lco lco _ _
          (by rw [lookupCount_bump, hm]) (by omega) (by omega) (by omega)
      rw [hidx, hatt] at heq
      rw [heq]
      refine ⟨_, _, rfl, ?_⟩
      simp [countExecs_append, countExecs, hcnt]
      omega
    · have hc1 : L < lookupCount (bumpCount cnts C) C := by
        rw [lookupCount_bump, hm]; omega
      have h2 : c + (L - m) = c := by omega
      have h3 : a + (L + 1 - m) = a + 1 := by omega
      simp only [loop, walkAux, hrl, hrun, hretry, hclass, hlimC, hmet, hmr, List.drop,
        getCount, bumpAt, List.getD_cons_zero, fullUnwrap, Bool.false_and, Bool.or_false,
        Bool.false_eq_true, if_false, ge_iff_le, Nat.cast_le, Nat.cast_lt, Nat.cast_nonneg,
        true_and, decide_eq_true_eq, hc1, ite_true, if_true, gt_iff_lt]
      rw [h2, h3]
      refine ⟨_, _, rfl, ?_⟩
      simp [countExecs]
      omega

/-- C3: with per-class limit L for class C, a single-step no-checkpoint
pipeline always failing with errors of class C, maxRetries at least L + 1 and
no elapsed-time ceiling, the step executes exactly L + 1 times before Retry
returns the non-nil wrapped error (the counter is bumped on each failure and
the run stops once it strictly exceeds L). -/
theorem retry_per_class_limit_count (cfg : Config) (step : Step)
    (outFn : Nat → GoVal → GoVal) (errFn : Nat → GoErr) (C : ErrorClass)
    (L M fuel : Nat)
    (hrun : ∀ c v, step.run c v = (outFn c v, some (errFn c), false))
    (hck : step.checkpoint = false)
    (hretry : ∀ c, cfg.retryable (fullUnwrap (errFn c)) = true)
    (hclass : ∀ c, cfg.classifier (fullUnwrap (errFn c)) = C)
    (hlimC : lookupLimit cfg.perErrorLimits C = some ((L : Nat) : Int))
    (hrl : cfg.rateLimiter = false)
    (hmet : cfg.maxElapsedTime = 0)
    (hmr : cfg.maxRetries = (M : Int))
    (hM : L + 1 ≤ M)
    (hib : 0 < cfg.initialBackoff) (hmb : cfg.initialBackoff ≤ cfg.maxBackoff)
    (hj : 0 ≤ cfg.jitter)
    (hfuel : L + 1 ≤ fuel) :
    ∃ tr, runOut cfg [step] false fuel =
        some (.err (.attemptError (L + 1) 1 (errFn L)), tr) ∧
      countExecs tr = L + 1 := by
  obtain ⟨tr, stF, heq, hcnt⟩ :=
    loop_class_limit cfg step outFn errFn C L M hrun hretry hclass hlimC hrl hmet hmr
      fuel 0 0 0 cfg.initialBackoff [] .nil .nil 0 0 rfl (by omega) (by omega) (by omega)
  simp only [Nat.sub_zero, Nat.zero_add] at heq hcnt
  have hval : validateErr cfg = none :=
    validateErr_eq_none cfg hib hmb hj (Or.inl (by omega))
  refine ⟨tr, ?_, hcnt⟩
  unfold runOut Retry
  rw [hval]
  have hinit : initState cfg [step] false =
      ⟨0, 0, cfg.initialBackoff, [], .nil, .nil, [0], false, 0, 0⟩ := rfl
  simp only [List.isEmpty_cons, Bool.false_eq_true, if_false, hinit, heq]
  rfl

/-- Witness for C3 at limit 2 on class "c" with maxRetries 10: exactly 3
executions. -/
theorem retry_per_class_limit_count_witness :
    (lookupLimit cfgClassLim.perErrorLimits "c" = some ((2 : Nat) : Int) ∧
      cfgClassLim.maxRetries = ((10 : Nat) : Int) ∧ (2 : Nat) + 1 ≤ 10 ∧
      (2 : Nat) + 1 ≤ 3) ∧
    ∃ tr, runOut cfgClassLim [sFail] false 3 =
        some (.err (.attemptError 3 1 (.base 2)), tr) ∧
      countExecs tr = 3 :=
  ⟨⟨by decide, by decide, by decide, by decide⟩,
   retry_per_class_limit_count cfgClassLim sFail (fun _ _ => .nil) .base "c" 2 10 3
     (fun _ _ => rfl) rfl (fun _ => rfl) (fun _ => rfl) (by decide) rfl rfl (by decide)
     (by decide) (by decide) (by decide) (by decide) (by decide)⟩

/-- C4: when the retryability predicate rejects the fully unwrapped root
cause of the first failure of a single-step pipeline, Retry terminates after
exactly one execution of the step, returns the wrapped error, leaves every
per-error-class counter untouched and sleeps for no backoff at all,
regardless of the remaining attempt budget. -/
theorem retry_nonretryable_single_execution (cfg : Config) (step : Step) (out0 : GoVal)
    (e0 : GoErr) (fuel : Nat)
    (hrun : step.run 0 .nil = (out0, some e0, false))
    (hnr : cfg.retryable (fullUnwrap e0) = false)
    (hrl : cfg.rateLimiter = false)
    (hib : 0 < cfg.initialBackoff) (hmb : cfg.initialBackoff ≤ cfg.maxBackoff)
    (hj : 0 ≤ cfg.jitter)
    (hok : 0 ≤ cfg.maxRetries ∨ cfg.maxElapsedTime ≠ 0)
    (hfuel : 1 ≤ fuel) :
    runOut cfg [step] false fuel =
      some (.err (.attemptError 1 1 e0),
        [.attemptStart 1, .exec 0 .nil out0 (some e0), .fail (.attemptError 1 1 e0)]) ∧
    (runState cfg [step] false fuel).map (fun s => (s.counts, s.elapsed)) =
      some ([], 0) := by
  obtain ⟨f, rfl⟩ : ∃ f, fuel = f + 1 := ⟨fuel - 1, by omega⟩
  have hval := validateErr_eq_none cfg hib hmb hj hok
  unfold runOut runState Retry
  rw [hval]
  have hinit : initState cfg [step] false =
      ⟨0, 0, cfg.initialBackoff, [], .nil, .nil, [0], false, 0, 0⟩ := rfl
  simp only [List.isEmpty_cons, Bool.false_eq_true, if_false, hinit]
  simp only [loop, walkAux, hrl, hrun, hnr, List.drop, getCount, bumpAt,
    List.getD_cons_zero, fullUnwrap, Bool.false_and, Bool.or_false, Bool.false_eq_true,
    if_false, ite_false]
  exact ⟨rfl, rfl⟩

/-- Witness for C4: a permanently-failing step under a predicate rejecting
its error runs once even with five attempts of budget remaining. -/
theorem retry_nonretryable_single_execution_witness :
    (sFail.run 0 .nil = (.nil, some (.base 0), false) ∧
      cfgNoRetry.retryable (fullUnwrap (.base 0)) = false ∧
      (0 : Int) ≤ cfgNoRetry.maxRetries) ∧
    (runOut cfgNoRetry [sFail] false 1 =
      some (.err (.attemptError 1 1 (.base 0)),
        [.attemptStart 1, .exec 0 .nil .nil (some (.base 0)),
         .fail (.attemptError 1 1 (.base 0))]) ∧
    (runState cfgNoRetry [sFail] false 1).map (fun s => (s.counts, s.elapsed)) =
      some ([], 0)) :=
  ⟨⟨rfl, rfl, by decide⟩,
   retry_nonretryable_single_execution cfgNoRetry sFail .nil (.base 0) 1 rfl rfl rfl
     (by decide) (by decide) (by decide) (Or.inl (by decide)) (by decide)⟩

/-- C6 (amended): if the context is cancelled from within a step that also
returns a business error, and no terminal condition fires at that failure
(the error is retryable, no per-class limit is hit, the attempt and elapsed
ceilings do not bind), then Retry returns the cancellation cause unchanged -
not wrapped, not the business error - observing the cancellation at the
backoff sleep. -/
theorem retry_cancellation_cause_returned (cfg : Config) (step : Step) (out0 : GoVal)
    (e0 : GoErr) (fuel : Nat)
    (hrun : step.run 0 .nil = (out0, some e0, true))
    (hretry : cfg.retryable (fullUnwrap e0) = true)
    (hlim : lookupLimit cfg.perErrorLimits (cfg.classifier (fullUnwrap e0)) = none)
    (hrl : cfg.rateLimiter = false)
    (hmr : (1 : Int) < cfg.maxRetries)
    (hmet : cfg.maxElapsedTime = 0)
    (hib : 0 < cfg.initialBackoff) (hmb : cfg.initialBackoff ≤ cfg.maxBackoff)
    (hj : 0 ≤ cfg.jitter)
    (hpos : 0 < cfg.backoffStrategy 1 cfg.initialBackoff)
    (hfuel : 1 ≤ fuel) :
    runOut cfg [step] false fuel =
      some (.err .canceled,
        [.attemptStart 1, .exec 0 .nil out0 (some e0),
         .fail (.attemptError 1 1 e0)]) := by
  obtain ⟨f, rfl⟩ : ∃ f, fuel = f + 1 := ⟨fuel - 1, by omega⟩
  have hval := validateErr_eq_none cfg hib hmb hj (Or.inl (by omega))
  unfold runOut Retry
  rw [hval]
  have hinit : initState cfg [step] false =
      ⟨0, 0, cfg.initialBackoff, [], .nil, .nil, [0], false, 0, 0⟩ := rfl
  simp only [List.isEmpty_cons, Bool.false_eq_true, if_false, hinit]
  simp only [loop, walkAux, hrl, hrun, hretry, hlim, hmet, hmr, List.drop, getCount,
    bumpAt, List.getD_cons_zero, fullUnwrap, Bool.false_and, Bool.or_false, Bool.false_or,
    Bool.false_eq_true, if_false, ge_iff_le, Nat.cast_le, Nat.cast_one, Nat.cast_nonneg,
    true_and, lt_self_iff_false, false_and, ite_false, if_true, ite_true]
  rw [if_neg (by push_cast; omega)]
  rfl

/-- Witness for C6: the cancelling-and-failing step under the baseline
configuration makes Retry return the bare cancellation cause. -/
theorem retry_cancellation_cause_returned_witness :
    (sCancelFail.run 0 .nil = (.nil, some (.base 7), true) ∧
      cfgBase.retryable (fullUnwrap (.base 7)) = true ∧
      (1 : Int) < cfgBase.maxRetries ∧
      0 < cfgBase.backoffStrategy 1 cfgBase.initialBackoff) ∧
    runOut cfgBase [sCancelFail] false 1 =
      some (.err .canceled,
        [.attemptStart 1, .exec 0 .nil .nil (some (.base 7)),
         .fail (.attemptError 1 1 (.base 7))]) :=
  ⟨⟨rfl, rfl, by decide, by decide⟩,
   retry_cancellation_cause_returned cfgBase sCancelFail .nil (.base 7) 1 rfl rfl rfl rfl
     (by decide) rfl (by decide) (by decide) (by decide) (by decide) (by decide)⟩


theorem ChainStep_run_mismatch (inTy : Nat) (f : Nat → GoVal → GoVal × Option GoErr × Bool)
    (c ty p : Nat) (h : ¬ ty = inTy) :
    (ChainStep inTy f).run c (.mk ty p) = (.nil, some (.typeMismatch inTy ty), false) := by
  simp [ChainStep, h]

theorem ChainStep_outputPtr (inTy : Nat) (f : Nat → GoVal → GoVal × Option GoErr × Bool) :
    (ChainStep inTy f).outputPtr = none := rfl

theorem ChainStep_checkpoint (inTy : Nat) (f : Nat → GoVal → GoVal × Option GoErr × Bool) :
    (ChainStep inTy f).checkpoint = false := rfl

theorem loop_chain_mismatch (cfg : Config) (tyA tyB pay : Nat)
    (f : Nat → GoVal → GoVal × Option GoErr × Bool) (M : Nat)
    (hty : ¬ tyA = tyB)
    (hretry : ∀ e, cfg.retryable e = true)
    (hlim : ∀ k, lookupLimit cfg.perErrorLimits k = none)
    (hrl : cfg.rateLimiter = false)
    (hmet : cfg.maxElapsedTime = 0)
    (hmr : cfg.maxRetries = (M : Int)) :
    ∀ (fuel a x y : Nat) (cb : Int) (cnts : List (ErrorClass × Nat)) (lco po : GoVal)
      (el : Int) (sd : Nat),
      a < M → M - a ≤ fuel →
      ∃ tr stF, loop cfg
          [{ run := fun _ _ => (.mk tyA pay, none, false) }, ChainStep tyB f]
          ⟨0, a, cb, cnts, lco, po, [x, y], false, el, sd⟩ fuel =
        some (.err (.attemptError M 2 (.typeMismatch tyB tyA)), tr, stF) ∧
        countExecsAt tr 1 = M - a ∧ countExecsAt tr 0 = M - a := by
  intro fuel
  induction fuel with
  | zero => intro a x y cb cnts lco po el sd hlt hf; omega
  | succ fuel ih =>
    intro a x y cb cnts lco po el sd hlt hf
    rcases Nat.lt_or_ge (a + 1) M with hlt2 | hge
    · have hncond : ¬ M ≤ a + 1 := by omega
      simp only [loop, walkAux, ChainStep_run_mismatch _ _ _ _ _ hty, ChainStep_outputPtr,
        ChainStep_checkpoint, ckptUpdate, hrl, hretry, hlim, hmet, hmr,
        List.drop, getCount, bumpAt, List.getD_cons_zero, List.getD_cons_succ,
        Bool.false_and, Bool.or_false, Bool.false_eq_true, if_false, ge_iff_le,
        Nat.cast_le, Nat.cast_nonneg, true_and, hncond, lt_self_iff_false, false_and,
        ite_false, if_true, ite_true]
      obtain ⟨tr2, stF, heq, hcnt1, hcnt0⟩ :=
        ih (a + 1) (x + 1) (y + 1) _ _ lco (.mk tyA pay) _ _ hlt2 (by omega)
      rw [heq]
      refine ⟨_, _, rfl, ?_, ?_⟩
      · simp [countExecsAt_append, countExecsAt, hcnt1]
        omega
      · simp [countExecsAt_append, countExecsAt, hcnt0]
        omega
    · have hcond : M ≤ a + 1 := hge
      simp only [loop, walkAux, ChainStep_run_mismatch _ _ _ _ _ hty, ChainStep_outputPtr,
        ChainStep_checkpoint, ckptUpdate, hrl, hretry, hlim, hmet, hmr,
        List.drop, getCount, bumpAt, List.getD_cons_zero, List.getD_cons_succ,
        Bool.false_and, Bool.or_false, Bool.false_eq_true, if_false, ge_iff_le,
        Nat.cast_le, Nat.cast_nonneg, true_and, hcond, ite_true, if_true]
      rw [show a + 1 = M from by omega]
      refine ⟨_, _, rfl, ?_, ?_⟩
      · simp [countExecsAt]
        omega
      · simp [countExecsAt]
        omega

/-- C5 (amended): a runtime type mismatch between chained steps is an
ordinary step failure, wrapped with attempt/step metadata and subject to the
normal retry policy: under an always-true retryability predicate with no
per-class limits and no elapsed ceiling, both steps re-execute on every
attempt and Retry returns the wrapped mismatch only after maxRetries
attempts - the mismatch is neither fatal nor surfaced immediately. -/
theorem chain_type_mismatch_retried (cfg : Config) (tyA tyB pay : Nat)
    (f : Nat → GoVal → GoVal × Option GoErr × Bool) (M fuel : Nat)
    (hty : ¬ tyA = tyB)
    (hretry : ∀ e, cfg.retryable e = true)
    (hlim : ∀ k, lookupLimit cfg.perErrorLimits k = none)
    (hrl : cfg.rateLimiter = false)
    (hmet : cfg.maxElapsedTime = 0)
    (hmr : cfg.maxRetries = (M : Int))
    (hM : 1 ≤ M)
    (hib : 0 < cfg.initialBackoff) (hmb : cfg.initialBackoff ≤ cfg.maxBackoff)
    (hj : 0 ≤ cfg.jitter)
    (hfuel : M ≤ fuel) :
    ∃ tr, runOut cfg
        [{ run := fun _ _ => (.mk tyA pay, none, false) }, ChainStep tyB f] false fuel =
        some (.err (.attemptError M 2 (.typeMismatch tyB tyA)), tr) ∧
      countExecsAt tr 1 = M ∧ countExecsAt tr 0 = M := by
  obtain ⟨tr, stF, heq, hcnt1, hcnt0⟩ :=
    loop_chain_mismatch cfg tyA tyB pay f M hty hretry hlim hrl hmet hmr fuel 0 0 0
      cfg.initialBackoff [] .nil .nil 0 0 (by omega) (by omega)
  simp only [Nat.sub_zero] at hcnt1 hcnt0
  have hval : validateErr cfg = none :=
    validateErr_eq_none cfg hib hmb hj (Or.inl (by omega))
  refine ⟨tr, ?_, hcnt1, hcnt0⟩
  unfold runOut Retry
  rw [hval]
  have hinit : initState cfg
      [{ run := fun _ _ => (.mk tyA pay, none, false) }, ChainStep tyB f] false =
      ⟨0, 0, cfg.initialBackoff, [], .nil, .nil, [0, 0], false, 0, 0⟩ := rfl
  simp only [List.isEmpty_cons, Bool.false_eq_true, if_false, hinit, heq]
  rfl

/-- Witness for C5 at type tags 1 and 2 with maxRetries 2: the mismatching
step runs twice. -/
theorem chain_type_mismatch_retried_witness :
    (¬ (1 : Nat) = 2 ∧ cfgTwoRetries.maxRetries = ((2 : Nat) : Int)) ∧
    ∃ tr, runOut cfgTwoRetries [sTypeA, sChainB] false 2 =
        some (.err (.attemptError 2 2 (.typeMismatch 2 1)), tr) ∧
      countExecsAt tr 1 = 2 ∧ countExecsAt tr 0 = 2 :=
  ⟨⟨by decide, by decide⟩,
   chain_type_mismatch_retried cfgTwoRetries 1 2 0 (fun _ v => (v, none, false)) 2 2
     (by decide) (fun _ => rfl) (fun _ => rfl) rfl rfl (by decide) (by decide) (by decide)
     (by decide) (by decide) (by decide)⟩


/-- C8 (amended): a step failure is wrapped in an AttemptError whose Step
field is the 1-based index of the failing step in the FULL pipeline (even
when the walk starts past a checkpoint) and whose Attempt field is the
engine's attempt counter at the failure: 1-based counted since the last
checkpoint reset, except that a failure later in the same walk in which a
checkpoint advanced is reported with Attempt = 0 (the counter is zeroed at
the advance and only re-incremented at the next walk).  Unwrap returns the
original cause.  Here: checkpointed step 0 succeeds, step 1 fails in the
same walk (wrapped Attempt 0, Step 2) and again in the next walk (wrapped
Attempt 1, Step 2). -/
theorem attempt_error_fields (b B : Int) (strat : Int → Int → Int) (cl : GoErr → ErrorClass)
    (js : Nat → Int) (v0 : GoVal) (vout : Nat → GoVal) (e : Nat → GoErr)
    (hb : 0 < b) (hB : b ≤ B) :
    runOut
      ⟨b, B, 0, 1, 0, strat, fun _ => true, [], cl, false, true, js⟩
      [{ run := fun _ _ => (v0, none, false), checkpoint := true },
       { run := fun c _ => (vout c, some (e c), false) }] false 2 =
      some (.err (.attemptError 1 2 (e 1)),
        [.attemptStart 1, .exec 0 .nil v0 none, .exec 1 v0 (vout 0) (some (e 0)),
         .fail (.attemptError 0 2 (e 0)), .sleep (min (strat 0 b) B),
         .attemptStart 1, .exec 1 v0 (vout 1) (some (e 1)),
         .fail (.attemptError 1 2 (e 1))]) ∧
    goUnwrap (.attemptError 0 2 (e 0)) = some (e 0) ∧
    goUnwrap (.attemptError 1 2 (e 1)) = some (e 1) := by
  refine ⟨?_, rfl, rfl⟩
  have h1 : ¬ (b ≤ 0) := by omega
  have h2 : ¬ (B < b) := by omega
  unfold runOut Retry validateErr
  simp only [h1, h2, lt_self_iff_false, lt_irrefl, if_false, ite_false, and_false,
    false_and, List.isEmpty_cons, Bool.false_eq_true]
  simp [loop, walkAux, ckptUpdate, getCount, bumpAt, initState, fullUnwrap, lookupLimit]

/-- Witness for C8 on the concrete checkpoint-then-fail pipeline. -/
theorem attempt_error_fields_witness :
    ((0 : Int) < 1 ∧ (1 : Int) ≤ 1) ∧
    (runOut cfgOneRetry [sCkptA, sFail] false 2 =
      some (.err (.attemptError 1 2 (.base 1)),
        [.attemptStart 1, .exec 0 .nil (.mk 1 7) none,
         .exec 1 (.mk 1 7) .nil (some (.base 0)), .fail (.attemptError 0 2 (.base 0)),
         .sleep 1, .attemptStart 1, .exec 1 (.mk 1 7) .nil (some (.base 1)),
         .fail (.attemptError 1 2 (.base 1))]) ∧
     goUnwrap (.attemptError 0 2 (.base 0)) = some (.base 0) ∧
     goUnwrap (.attemptError 1 2 (.base 1)) = some (.base 1)) :=
  ⟨⟨by decide, by decide⟩,
   attempt_error_fields 1 1 (fun _ p => p) (fun _ => "c") (fun _ => 0) (.mk 1 7)
     (fun _ => .nil) .base (by decide) (by decide)⟩


theorem checkpointSafe_nil (k : Nat) (w : GoVal) : checkpointSafe k w [] := by
  simp [checkpointSafe]

theorem checkpointSafe_cons (k : Nat) (w : GoVal) (ev : Ev) (tr : List Ev) :
    checkpointSafe k w (ev :: tr) ↔ evOK k w ev ∧ checkpointSafe k w tr := by
  simp [checkpointSafe]

theorem checkpointSafe_append (k : Nat) (w : GoVal) (t1 t2 : List Ev) :
    checkpointSafe k w (t1 ++ t2) ↔ checkpointSafe k w t1 ∧ checkpointSafe k w t2 := by
  constructor
  · intro h
    exact ⟨fun ev hm => h ev (List.mem_append_left _ hm),
           fun ev hm => h ev (List.mem_append_right _ hm)⟩
  · intro h ev hm
    rcases List.mem_append.mp hm with hm1 | hm2
    · exact h.1 ev hm1
    · exact h.2 ev hm2

/-- ckptUpdate either leaves the state alone or advances the resume point to
i + 1 while snapshotting the output. -/
theorem ckptUpdate_spec (cfg : Config) (i : Nat) (s : Step) (out : GoVal) (st : State) :
    ckptUpdate cfg i s out st = st ∨
    ((ckptUpdate cfg i s out st).checkpoint = i + 1 ∧
     (ckptUpdate cfg i s out st).lastCheckpointOutput = out) := by
  unfold ckptUpdate
  split
  · exact Or.inr ⟨rfl, rfl⟩
  · exact Or.inl rfl

/-- The checkpoint-contract preconditions survive the ckptUpdate at index i
when the walk is already strictly past k. -/
theorem pre_step (cfg : Config) (k i : Nat) (w : GoVal) (s : Step) (out : GoVal)
    (st1 : State) (hki : k < i) (hkc : k < st1.checkpoint) (hci : st1.checkpoint ≤ i)
    (hlc : st1.checkpoint = k + 1 → st1.lastCheckpointOutput = w) :
    k < (ckptUpdate cfg i s out st1).checkpoint ∧
    (ckptUpdate cfg i s out st1).checkpoint ≤ i + 1 ∧
    ((ckptUpdate cfg i s out st1).checkpoint = k + 1 →
      (ckptUpdate cfg i s out st1).lastCheckpointOutput = w) := by
  rcases ckptUpdate_spec cfg i s out st1 with heq | ⟨h1, h2⟩
  · rw [heq]
    exact ⟨hkc, by omega, hlc⟩
  · rw [h1]
    exact ⟨by omega, by omega, fun h => absurd h (by omega)⟩

/-- Once the walk is strictly past checkpoint step k, whose output w is held
in lastCheckpointOutput whenever the resume point sits at k + 1: every event
it emits respects the checkpoint contract, the resume point stays past k,
and a resume point of exactly k + 1 still carries w. -/
theorem walkAux_pre (cfg : Config) (k : Nat) (w : GoVal) :
    ∀ (remaining : List Step) (i : Nat) (st : State),
      k < i → k < st.checkpoint → st.checkpoint ≤ i →
      (i = k + 1 → st.prevOutput = w) →
      (st.checkpoint = k + 1 → st.lastCheckpointOutput = w) →
      checkpointSafe k w (walkAux cfg i remaining st).2.1 ∧
      k < (walkAux cfg i remaining st).1.checkpoint ∧
      ((walkAux cfg i remaining st).1.checkpoint = k + 1 →
        (walkAux cfg i remaining st).1.lastCheckpointOutput = w) := by
  intro remaining
  induction remaining with
  | nil =>
    intro i st hki hkc hci hpv hlc
    exact ⟨checkpointSafe_nil k w, hkc, hlc⟩
  | cons s rest ih =>
    intro i st hki hkc hci hpv hlc
    by_cases hcn : st.cancelled
    · simp only [walkAux, hcn, if_true, ite_true]
      exact ⟨checkpointSafe_nil k w, hkc, hlc⟩
    · rw [Bool.not_eq_true] at hcn
      rcases hr : s.run (getCount st.callCounts i) st.prevOutput with ⟨out, errOpt, cancels⟩
      have hevOK : evOK k w (Ev.exec i st.prevOutput out errOpt) := ⟨hki, fun h => hpv h⟩
      cases errOpt with
      | some e =>
        simp only [walkAux, hcn, Bool.false_eq_true, if_false, ite_false, hr]
        refine ⟨?_, hkc, hlc⟩
        rw [checkpointSafe_cons, checkpointSafe_cons]
        exact ⟨hevOK, trivial, checkpointSafe_nil k w⟩
      | none =>
        cases hp : s.outputPtr with
        | none =>
          simp only [walkAux, hcn, Bool.false_eq_true, if_false, ite_false, hr, hp]
          have hps := pre_step cfg k i w s out
            { st with callCounts := bumpAt st.callCounts i,
                      cancelled := false || cancels, prevOutput := out }
            hki hkc hci hlc
          have hih := ih (i + 1) _ (by omega) hps.1 hps.2.1
            (fun h => absurd h (by omega)) hps.2.2
          refine ⟨?_, hih.2.1, hih.2.2⟩
          rw [checkpointSafe_cons]
          exact ⟨hevOK, hih.1⟩
        | some outTy =>
          cases out with
          | nil =>
            simp only [walkAux, hcn, Bool.false_eq_true, if_false, ite_false, hr, hp]
            refine ⟨?_, hkc, hlc⟩
            rw [checkpointSafe_cons]
            exact ⟨hevOK, checkpointSafe_nil k w⟩
          | mk ty p =>
            by_cases hty : ty = outTy
            · subst hty
              simp only [walkAux, hcn, Bool.false_eq_true, if_false, ite_false, hr, hp,
                eq_self_iff_true, if_true, ite_true]
              have hps := pre_step cfg k i w s (.mk ty p)
                { st with callCounts := bumpAt st.callCounts i,
                          cancelled := false || cancels, prevOutput := .mk ty p }
                hki hkc hci hlc
              have hih := ih (i + 1) _ (by omega) hps.1 hps.2.1
                (fun h => absurd h (by omega)) hps.2.2
              refine ⟨?_, hih.2.1, hih.2.2⟩
              rw [checkpointSafe_cons, checkpointSafe_cons]
              exact ⟨hevOK, trivial, hih.1⟩
            · simp only [walkAux, hcn, Bool.false_eq_true, if_false, ite_false, hr, hp, hty]
              refine ⟨?_, hkc, hlc⟩
              rw [checkpointSafe_cons]
              exact ⟨hevOK, checkpointSafe_nil k w⟩



/-- ckptUpdate at a checkpoint-marked step advances the resume point and
snapshots the output, leaving prevOutput alone. -/
theorem ckptUpdate_of_checkpoint (cfg : Config) (i : Nat) (s : Step) (out : GoVal)
    (st : State) (h : s.checkpoint = true) :
    (ckptUpdate cfg i s out st).checkpoint = i + 1 ∧
    (ckptUpdate cfg i s out st).lastCheckpointOutput = out ∧
    (ckptUpdate cfg i s out st).prevOutput = st.prevOutput := by
  unfold ckptUpdate
  rw [h]
  exact ⟨rfl, rfl, rfl⟩

/-- Wherever the successful execution of checkpoint step k with output w sits
inside a walk's trace, the remainder of that trace respects the checkpoint
contract, and if the walk ends in an ordinary step failure its final state
has its resume point past k, still carrying w when it sits at k + 1. -/
theorem walkAux_split (cfg : Config) (k : Nat) (sk : Step) (hsk : sk.checkpoint = true) :
    ∀ (remaining : List Step) (i : Nat) (st : State) (t1 : List Ev) (v w : GoVal)
      (t2 : List Ev),
      (∀ j : Nat, i + j = k → remaining.get? j = some sk) →
      (walkAux cfg i remaining st).2.1 = t1 ++ Ev.exec k v w none :: t2 →
      checkpointSafe k w t2 ∧
      (∀ e, (walkAux cfg i remaining st).2.2 = .failedAt e →
        k < (walkAux cfg i remaining st).1.checkpoint ∧
        ((walkAux cfg i remaining st).1.checkpoint = k + 1 →
          (walkAux cfg i remaining st).1.lastCheckpointOutput = w)) := by
  intro remaining
  induction remaining with
  | nil =>
    intro i st t1 v w t2 hget hsplit
    exact absurd hsplit (by simp [walkAux])
  | cons s rest ih =>
    intro i st t1 v w t2 hget hsplit
    have hget' : ∀ j : Nat, (i + 1) + j = k → rest.get? j = some sk := by
      intro j hj
      have h := hget (j + 1) (by omega)
      simpa using h
    by_cases hcn : st.cancelled
    · rw [show walkAux cfg i (s :: rest) st = (st, [], .fatal (.err .canceled)) from by
        simp [walkAux, hcn]] at hsplit ⊢
      exact absurd hsplit (by simp)
    · rw [Bool.not_eq_true] at hcn
      rcases hr : s.run (getCount st.callCounts i) st.prevOutput with ⟨out, errOpt, cancels⟩
      cases errOpt with
      | some e =>
        simp only [walkAux, hcn, Bool.false_eq_true, if_false, ite_false, hr] at hsplit ⊢
        rcases t1 with _ | ⟨x, _ | ⟨y, t1''⟩⟩
        · simp at hsplit
        · simp at hsplit
        · simp at hsplit
      | none =>
        cases hp : s.outputPtr with
        | none =>
          simp only [walkAux, hcn, Bool.false_eq_true, if_false, ite_false, hr, hp]
            at hsplit ⊢
          rcases t1 with _ | ⟨x, t1'⟩
          · simp only [List.nil_append, List.cons.injEq] at hsplit
            obtain ⟨hev, htail⟩ := hsplit
            rw [Ev.exec.injEq] at hev
            obtain ⟨hik, hpv2, how, -⟩ := hev
            subst hik
            subst how
            have hs : s = sk := by
              have h0 := hget 0 (by omega)
              simpa using h0
            have hsks : s.checkpoint = true := by rw [hs]; exact hsk
            have hadv := ckptUpdate_of_checkpoint cfg i s out
              { st with callCounts := bumpAt st.callCounts i,
                        cancelled := false || cancels, prevOutput := out } hsks
            have hpre := walkAux_pre cfg i out rest (i + 1) _
              (by omega) (by rw [hadv.1]; omega) (by rw [hadv.1])
              (fun _ => hadv.2.2) (fun _ => hadv.2.1)
            rw [← htail]
            exact ⟨hpre.1, fun e _ => ⟨hpre.2.1, hpre.2.2⟩⟩
          · simp only [List.cons_append, List.cons.injEq] at hsplit
            obtain ⟨hx, htail⟩ := hsplit
            exact ih (i + 1) _ t1' v w t2 hget' htail
        | some outTy =>
          cases out with
          | nil =>
            simp only [walkAux, hcn, Bool.false_eq_true, if_false, ite_false, hr, hp]
              at hsplit ⊢
            rcases t1 with _ | ⟨x, t1'⟩
            · simp only [List.nil_append, List.cons.injEq] at hsplit
              obtain ⟨hev, ht2⟩ := hsplit
              rw [← ht2]
              exact ⟨checkpointSafe_nil k w, fun e he => by simp at he⟩
            · simp at hsplit
          | mk ty p =>
            by_cases hty : ty = outTy
            · subst hty
              simp only [walkAux, hcn, Bool.false_eq_true, if_false, ite_false, hr, hp,
                eq_self_iff_true, if_true, ite_true] at hsplit ⊢
              rcases t1 with _ | ⟨x, _ | ⟨y, t1''⟩⟩
              · simp only [List.nil_append, List.cons.injEq] at hsplit
                obtain ⟨hev, htail⟩ := hsplit
                rw [Ev.exec.injEq] at hev
                obtain ⟨hik, hpv2, how, -⟩ := hev
                subst hik
                subst how
                have hs : s = sk := by
                  have h0 := hget 0 (by omega)
                  simpa using h0
                have hsks : s.checkpoint = true := by rw [hs]; exact hsk
                have hadv := ckptUpdate_of_checkpoint cfg i s (.mk ty p)
                  { st with callCounts := bumpAt st.callCounts i,
                            cancelled := false || cancels, prevOutput := .mk ty p } hsks
                have hpre := walkAux_pre cfg i (.mk ty p) rest (i + 1) _
                  (by omega) (by rw [hadv.1]; omega) (by rw [hadv.1])
                  (fun _ => hadv.2.2) (fun _ => hadv.2.1)
                rw [← htail]
                refine ⟨?_, fun e _ => ⟨hpre.2.1, hpre.2.2⟩⟩
                rw [checkpointSafe_cons]
                exact ⟨trivial, hpre.1⟩
              · simp at hsplit
              · simp only [List.cons_append, List.cons.injEq] at hsplit
                obtain ⟨hx, hy, htail⟩ := hsplit
                exact ih (i + 1) _ t1'' v w t2 hget' htail
            · simp only [walkAux, hcn, Bool.false_eq_true, if_false, ite_false, hr, hp,
                hty, ite_false] at hsplit ⊢
              rcases t1 with _ | ⟨x, t1'⟩
              · simp only [List.nil_append, List.cons.injEq] at hsplit
                obtain ⟨hev, ht2⟩ := hsplit
                rw [← ht2]
                exact ⟨checkpointSafe_nil k w, fun e he => by simp at he⟩
              · simp at hsplit



/-- If the resume point is already past checkpoint step k (with w snapshotted
whenever it sits at k + 1), every event the remaining loop iterations emit
respects the checkpoint contract. -/
theorem loop_pre (cfg : Config) (steps : List Step) (k : Nat) (w : GoVal) :
    ∀ (fuel : Nat) (st : State), k < st.checkpoint →
      (st.checkpoint = k + 1 → st.lastCheckpointOutput = w) →
      ∀ out tr stF, loop cfg steps st fuel = some (out, tr, stF) →
      checkpointSafe k w tr := by
  intro fuel
  induction fuel with
  | zero =>
    intro st _ _ out tr stF h
    simp [loop] at h
  | succ fuel ih =>
    intro st hkc hlc out tr stF hloop
    simp only [loop] at hloop
    split at hloop
    · simp only [Option.some.injEq, Prod.mk.injEq] at hloop
      obtain ⟨-, htr, -⟩ := hloop
      rw [← htr]
      exact checkpointSafe_nil k w
    · have hpre := walkAux_pre cfg k w (steps.drop st.checkpoint) st.checkpoint
        { st with currentAttempt := st.currentAttempt + 1,
                  prevOutput := st.lastCheckpointOutput }
        hkc hkc (Nat.le_refl _) (fun h => hlc h) hlc
      split at hloop
      · simp only [Option.some.injEq, Prod.mk.injEq] at hloop
        obtain ⟨-, htr, -⟩ := hloop
        rw [← htr, checkpointSafe_cons]
        exact ⟨trivial, hpre.1⟩
      · simp only [Option.some.injEq, Prod.mk.injEq] at hloop
        obtain ⟨-, htr, -⟩ := hloop
        rw [← htr, checkpointSafe_cons]
        exact ⟨trivial, hpre.1⟩
      · split at hloop
        · split at hloop
          · simp only [Option.some.injEq, Prod.mk.injEq] at hloop
            obtain ⟨-, htr, -⟩ := hloop
            rw [← htr, checkpointSafe_cons]
            exact ⟨trivial, hpre.1⟩
          · split at hloop
            · simp only [Option.some.injEq, Prod.mk.injEq] at hloop
              obtain ⟨-, htr, -⟩ := hloop
              rw [← htr, checkpointSafe_cons]
              exact ⟨trivial, hpre.1⟩
            · split at hloop
              · simp only [Option.some.injEq, Prod.mk.injEq] at hloop
                obtain ⟨-, htr, -⟩ := hloop
                rw [← htr, checkpointSafe_cons]
                exact ⟨trivial, hpre.1⟩
              · split at hloop
                · simp only [Option.some.injEq, Prod.mk.injEq] at hloop
                  obtain ⟨-, htr, -⟩ := hloop
                  rw [← htr, checkpointSafe_cons]
                  exact ⟨trivial, hpre.1⟩
                · split at hloop
                  · exact absurd hloop (by simp)
                  · rename_i o2 tr2 stF2 hrec
                    simp only [Option.some.injEq, Prod.mk.injEq] at hloop
                    obtain ⟨-, htr, -⟩ := hloop
                    rw [← htr, List.cons_append, checkpointSafe_cons,
                      checkpointSafe_append, checkpointSafe_cons]
                    refine ⟨trivial, hpre.1, trivial, ?_⟩
                    refine ih _ ?_ ?_ _ _ _ hrec
                    · exact hpre.2.1
                    · exact hpre.2.2
        · simp only [Option.some.injEq, Prod.mk.injEq] at hloop
          obtain ⟨-, htr, -⟩ := hloop
          rw [← htr, checkpointSafe_cons]
          exact ⟨trivial, hpre.1⟩



/-- Splitting a concatenation where both sides are concatenations: one of the
two left parts is a prefix of the other. -/
theorem append_eq_append_cases {α : Type} :
    ∀ (a b c d : List α), a ++ b = c ++ d →
      (∃ m, c = a ++ m ∧ b = m ++ d) ∨ (∃ m, a = c ++ m ∧ d = m ++ b) := by
  intro a
  induction a with
  | nil =>
    intro b c d h
    exact Or.inl ⟨c, rfl, h⟩
  | cons x a' iha =>
    intro b c d h
    cases c with
    | nil =>
      refine Or.inr ⟨x :: a', rfl, ?_⟩
      simpa using h.symm
    | cons y c' =>
      simp only [List.cons_append, List.cons.injEq] at h
      obtain ⟨hxy, h'⟩ := h
      rcases iha b c' d h' with ⟨m, hc, hb⟩ | ⟨m, ha, hd⟩
      · subst hxy
        exact Or.inl ⟨m, by rw [hc]; rfl, hb⟩
      · subst hxy
        exact Or.inr ⟨m, by rw [ha]; rfl, hd⟩

theorem get?_drop_eq {α : Type} :
    ∀ (n : Nat) (l : List α) (m : Nat), (l.drop n).get? m = l.get? (n + m) := by
  intro n
  induction n with
  | zero => intro l m; simp
  | succ n ihn =>
    intro l m
    cases l with
    | nil => simp
    | cons x l' =>
      simp only [List.drop_succ_cons, ihn l' m]
      rw [show n + 1 + m = (n + m) + 1 from by omega]
      rfl



/-- Wherever the successful execution of checkpoint step k with output w sits
in the trace of a terminating run of the loop, the rest of the trace respects
the checkpoint contract: no step at or before k runs again, and step k + 1
only ever receives w. -/
theorem loop_split (cfg : Config) (steps : List Step) (k : Nat) (sk : Step)
    (hsk : sk.checkpoint = true) (hget : steps.get? k = some sk) :
    ∀ (fuel : Nat) (st : State) (out : Outcome) (tr : List Ev) (stF : State)
      (t1 : List Ev) (v w : GoVal) (t2 : List Ev),
      loop cfg steps st fuel = some (out, tr, stF) →
      tr = t1 ++ Ev.exec k v w none :: t2 →
      checkpointSafe k w t2 := by
  intro fuel
  induction fuel with
  | zero =>
    intro st out tr stF t1 v w t2 hloop hsplit
    simp [loop] at hloop
  | succ fuel ih =>
    intro st out tr stF t1 v w t2 hloop hsplit
    have hwget : ∀ j : Nat, st.checkpoint + j = k →
        (steps.drop st.checkpoint).get? j = some sk := by
      intro j hj
      rw [get?_drop_eq, hj]
      exact hget
    simp only [loop] at hloop
    split at hloop
    · simp only [Option.some.injEq, Prod.mk.injEq] at hloop
      obtain ⟨-, htr, -⟩ := hloop
      rw [← htr] at hsplit
      exact absurd hsplit (by simp)
    · split at hloop
      · -- completed
        simp only [Option.some.injEq, Prod.mk.injEq] at hloop
        obtain ⟨-, htr, -⟩ := hloop
        rw [← htr] at hsplit
        rcases t1 with _ | ⟨x, t1'⟩
        · simp at hsplit
        · simp only [List.cons_append, List.cons.injEq] at hsplit
          exact (walkAux_split cfg k sk hsk _ _ _ t1' v w t2 hwget hsplit.2).1
      · -- fatal
        simp only [Option.some.injEq, Prod.mk.injEq] at hloop
        obtain ⟨-, htr, -⟩ := hloop
        rw [← htr] at hsplit
        rcases t1 with _ | ⟨x, t1'⟩
        · simp at hsplit
        · simp only [List.cons_append, List.cons.injEq] at hsplit
          exact (walkAux_split cfg k sk hsk _ _ _ t1' v w t2 hwget hsplit.2).1
      · -- failedAt
        rename_i e heqexit
        split at hloop
        · split at hloop
          · simp only [Option.some.injEq, Prod.mk.injEq] at hloop
            obtain ⟨-, htr, -⟩ := hloop
            rw [← htr] at hsplit
            rcases t1 with _ | ⟨x, t1'⟩
            · simp at hsplit
            · simp only [List.cons_append, List.cons.injEq] at hsplit
              exact (walkAux_split cfg k sk hsk _ _ _ t1' v w t2 hwget hsplit.2).1
          · split at hloop
            · simp only [Option.some.injEq, Prod.mk.injEq] at hloop
              obtain ⟨-, htr, -⟩ := hloop
              rw [← htr] at hsplit
              rcases t1 with _ | ⟨x, t1'⟩
              · simp at hsplit
              · simp only [List.cons_append, List.cons.injEq] at hsplit
                exact (walkAux_split cfg k sk hsk _ _ _ t1' v w t2 hwget hsplit.2).1
            · split at hloop
              · simp only [Option.some.injEq, Prod.mk.injEq] at hloop
                obtain ⟨-, htr, -⟩ := hloop
                rw [← htr] at hsplit
                rcases t1 with _ | ⟨x, t1'⟩
                · simp at hsplit
                · simp only [List.cons_append, List.cons.injEq] at hsplit
                  exact (walkAux_split cfg k sk hsk _ _ _ t1' v w t2 hwget hsplit.2).1
              · split at hloop
                · simp only [Option.some.injEq, Prod.mk.injEq] at hloop
                  obtain ⟨-, htr, -⟩ := hloop
                  rw [← htr] at hsplit
                  rcases t1 with _ | ⟨x, t1'⟩
                  · simp at hsplit
                  · simp only [List.cons_append, List.cons.injEq] at hsplit
                    exact (walkAux_split cfg k sk hsk _ _ _ t1' v w t2 hwget hsplit.2).1
                · split at hloop
                  · exact absurd hloop (by simp)
                  · rename_i o2 tr2 stF2 hrec
                    simp only [Option.some.injEq, Prod.mk.injEq] at hloop
                    obtain ⟨-, htr, -⟩ := hloop
                    rw [← htr, List.cons_append] at hsplit
                    rcases t1 with _ | ⟨x, t1'⟩
                    · simp at hsplit
                    · simp only [List.cons_append, List.cons.injEq] at hsplit
                      rcases append_eq_append_cases _ _ _ _ hsplit.2 with
                        ⟨m, hc, hb⟩ | ⟨m, ha, hd⟩
                      · rcases m with _ | ⟨z, m'⟩
                        · simp at hb
                        · simp only [List.cons_append, List.cons.injEq] at hb
                          exact ih _ _ _ _ m' v w t2 hrec hb.2
                      · rcases m with _ | ⟨z, m'⟩
                        · simp at hd
                        · simp only [List.cons_append, List.cons.injEq] at hd
                          obtain ⟨hz, ht2⟩ := hd
                          subst hz
                          have hws := walkAux_split cfg k sk hsk _ _ _ t1'
                            v w m' hwget ha
                          have hinv := hws.2 e heqexit
                          rw [ht2, checkpointSafe_append, checkpointSafe_cons]
                          refine ⟨hws.1, trivial, ?_⟩
                          refine loop_pre cfg steps k w fuel _ ?_ ?_ _ _ _ hrec
                          · exact hinv.1
                          · exact hinv.2
        · -- non-retryable terminal
          simp only [Option.some.injEq, Prod.mk.injEq] at hloop
          obtain ⟨-, htr, -⟩ := hloop
          rw [← htr] at hsplit
          rcases t1 with _ | ⟨x, t1'⟩
          · simp at hsplit
          · simp only [List.cons_append, List.cons.injEq] at hsplit
            exact (walkAux_split cfg k sk hsk _ _ _ t1' v w t2 hwget hsplit.2).1



/-- C1 (amended): in any terminating Retry call, once a checkpoint-marked
step k succeeds with output w, no step with index at or below k executes
again - in the remainder of that walk or in any later attempt - and every
later execution of step k + 1 receives exactly w as its input. -/
theorem retry_checkpoint_resume (cfg : Config) (steps : List Step) (k : Nat) (sk : Step)
    (c0 : Bool) (fuel : Nat) (out : Outcome) (tr : List Ev)
    (t1 : List Ev) (v w : GoVal) (t2 : List Ev)
    (hget : steps.get? k = some sk) (hsk : sk.checkpoint = true)
    (hrun : runOut cfg steps c0 fuel = some (out, tr))
    (hsplit : tr = t1 ++ Ev.exec k v w none :: t2) :
    (∀ j inp o e, Ev.exec j inp o e ∈ t2 → k < j) ∧
    (∀ inp o e, Ev.exec (k + 1) inp o e ∈ t2 → inp = w) := by
  unfold runOut at hrun
  rw [Option.map_eq_some'] at hrun
  obtain ⟨⟨out', tr', stF⟩, hre, hmap⟩ := hrun
  simp only [Prod.mk.injEq] at hmap
  obtain ⟨-, htr⟩ := hmap
  subst htr
  unfold Retry at hre
  split at hre
  · simp only [Option.some.injEq, Prod.mk.injEq] at hre
    obtain ⟨-, htr', -⟩ := hre
    rw [← htr'] at hsplit
    exact absurd hsplit.symm (by simp)
  · split at hre
    · simp only [Option.some.injEq, Prod.mk.injEq] at hre
      obtain ⟨-, htr', -⟩ := hre
      rw [← htr'] at hsplit
      exact absurd hsplit.symm (by simp)
    · have hsafe := loop_split cfg steps k sk hsk hget fuel _ _ _ _ t1 v w t2 hre hsplit
      exact ⟨fun j inp o e hm => (hsafe _ hm).1,
             fun inp o e hm => (hsafe _ hm).2 rfl⟩

/-- Witness for C1 on the single-checkpoint pipeline: after the checkpoint
step 0 succeeds with output (1, 7), the rest of the run touches only step 1
and always feeds it (1, 7). -/
theorem retry_checkpoint_resume_witness :
    ([sCkptA, sFailOnce].get? 0 = some sCkptA ∧ sCkptA.checkpoint = true ∧
      runOut cfgBase [sCkptA, sFailOnce] false 2 =
        some (.ok, [Ev.attemptStart 1] ++ Ev.exec 0 .nil (.mk 1 7) none :: trCkptTail)) ∧
    ((∀ j inp o e, Ev.exec j inp o e ∈ trCkptTail → 0 < j) ∧
     (∀ inp o e, Ev.exec (0 + 1) inp o e ∈ trCkptTail → inp = .mk 1 7)) :=
  ⟨⟨rfl, rfl, by decide⟩,
   retry_checkpoint_resume cfgBase [sCkptA, sFailOnce] 0 sCkptA false 2 .ok
     ([Ev.attemptStart 1] ++ Ev.exec 0 .nil (.mk 1 7) none :: trCkptTail)
     [Ev.attemptStart 1] .nil (.mk 1 7) trCkptTail rfl rfl (by decide) rfl⟩


end Retryflow
